import Mathlib

/-!
Verification of the read-path decoder for a Unix V6-style filesystem image.

The definitions below are a shallow embedding of the C sources
(`src/file.c`, `src/directory.c`, the unnamed inode and pathname units).
Disk sectors are modelled as byte lists; a sector read either fails
(`none`) or returns the full sector.  C `int` parameters that the code
checks for negativity are modelled as `Int`; all other machine values are
`Nat` (every on-disk field is a byte or a little-endian 16-bit word, so no
overflow can occur in the 32-bit `int` arithmetic of the C code).
-/

/-- Sector size in bytes (`DISKIMG_SECTOR_SIZE`), canonically 512 per the spec. -/
def DISKIMG_SECTOR_SIZE : Nat := 512

/-- Modelled from the spec: the header `unixfilesystem.h` is not in `src/`;
the inode list canonically starts at absolute sector 2 (`INODE_START_SECTOR`,
after the boot block and superblock). -/
def INODE_START_SECTOR : Nat := 2

/-- Modelled from the spec: the root inode number constant, 1 (the spec's
"inclusive lower bound 1 (the root inode number)"). -/
def ROOT_INUMBER : Int := 1

/-- Modelled from the spec: `sizeof(struct inode)` is 32 bytes in the V6
layout (`ino.h` is not in `src/`). -/
def INODE_SIZE : Nat := 32

/-- Inodes per sector: `DISKIMG_SECTOR_SIZE / sizeof(struct inode)` = 16. -/
def INODES_PER_BLOCK : Nat := 16

/-- Addresses per sector: `DISKIMG_SECTOR_SIZE / sizeof(uint16_t)` = 256
(the spec's `addressesPerSector`). -/
def ADDRESSES_PER_BLOCK : Nat := 256

/-- Modelled from the spec: the inode allocation flag bit (`IALLOC`,
octal 0100000). -/
def IALLOC : Nat := 32768

/-- Modelled from the spec: the large-file flag bit (`ILARG`, octal 010000). -/
def ILARG : Nat := 4096

/-- Modelled from the spec: the file-type mask (`IFMT`, octal 060000). -/
def IFMT : Nat := 24576

/-- Modelled from the spec: the directory type bits (`IFDIR`, octal 040000). -/
def IFDIR : Nat := 16384

/-- Modelled from the spec: `sizeof(struct direntv6)` = 16 bytes
(a 16-bit inumber plus a 14-byte name field; `direntv6.h` is not in `src/`). -/
def DIRENT_SIZE : Nat := 16

/-- Modelled from the spec: width of the fixed directory-entry name field
(`sizeof(dirEnt->d_name)` = 14). -/
def DIRENT_NAME_LEN : Nat := 14

/-- In-memory copy of an on-disk inode: the fields the decoder reads
(`i_mode`, the split size fields and the 8 block-address slots). -/
structure Inode where
  i_mode : Nat
  i_size0 : Nat
  i_size1 : Nat
  i_addr : List Nat
deriving DecidableEq

/-- An on-disk directory entry: a 16-bit inumber and the 14-byte fixed-width
name field (kept as the full 14 raw bytes). -/
structure Direntv6 where
  d_inumber : Nat
  d_name : List Nat
deriving DecidableEq

/-- The filesystem handle: the superblock's `s_isize` (inode-list length in
sectors) plus the sector accessor.  `readSector n = some bytes` models a
successful full-sector read of `DISKIMG_SECTOR_SIZE` bytes; `none` models
`diskimg_readsector` returning anything other than the full sector. -/
structure Unixfilesystem where
  s_isize : Nat
  readSector : Nat → Option (List Nat)

/-- Little-endian 16-bit word starting at byte offset `off` of a sector. -/
def word16At (s : List Nat) (off : Nat) : Nat :=
  s.getD off 0 + 256 * s.getD (off + 1) 0

/-- The `i`-th entry of a sector reinterpreted as a `uint16_t` array
(the C cast `((uint16_t *)block_buffer)[i]`). -/
def wordAt (s : List Nat) (i : Nat) : Nat :=
  word16At s (2 * i)

/-- Decode the `struct inode` record starting at byte offset `off` of an
inode-list sector (the `memcpy` in `inode_iget`); field offsets follow the
packed V6 layout: mode at 0, size0 at 5, size1 at 6, addr slots at 8. -/
def decodeInode (s : List Nat) (off : Nat) : Inode where
  i_mode := word16At s off
  i_size0 := s.getD (off + 5) 0
  i_size1 := word16At s (off + 6)
  i_addr := (List.range 8).map fun k => word16At s (off + 8 + 2 * k)

/-- Decode the `struct direntv6` record at byte offset `off` of a directory
data sector: inumber word at 0, the 14 name bytes at 2. -/
def decodeDirent (s : List Nat) (off : Nat) : Direntv6 where
  d_inumber := word16At s off
  d_name := (List.range DIRENT_NAME_LEN).map fun k => s.getD (off + 2 + k) 0

/-- `inode_getsize`: `(i_size0 << 16) | i_size1`. -/
def inode_getsize (inp : Inode) : Nat :=
  (inp.i_size0 <<< 16) ||| inp.i_size1

/-- `inode_iget`: validate the inumber bounds, read the containing
inode-list sector, copy out the record, and fail when the allocation flag
is unset.  `none` models the C function's `-1` return. -/
def inode_iget (fs : Unixfilesystem) (inumber : Int) : Option Inode :=
  if inumber < ROOT_INUMBER then none
  else if ((fs.s_isize * INODES_PER_BLOCK : Nat) : Int) < inumber then none
  else
    let idx : Nat := (inumber - 1).toNat
    match fs.readSector (INODE_START_SECTOR + idx / INODES_PER_BLOCK) with
    | none => none
    | some buf =>
      let ino := decodeInode buf ((idx % INODES_PER_BLOCK) * INODE_SIZE)
      if ino.i_mode &&& IALLOC = 0 then none else some ino

/-- `inode_indexlookup`: translate a logical file-block index into a
physical sector number through the direct / single-indirect /
double-indirect address scheme.  `none` models the C function's `-1`. -/
def inode_indexlookup (fs : Unixfilesystem) (inp : Inode)
    (fileBlockNum : Int) : Option Nat :=
  if fileBlockNum < 0 then none
  else
    let size := inode_getsize inp
    let fbn : Nat := fileBlockNum.toNat
    if size = 0 ∧ fbn = 0 then none
    else
      let maxLogical := (size + DISKIMG_SECTOR_SIZE - 1) / DISKIMG_SECTOR_SIZE
      if 0 < size ∧ maxLogical ≤ fbn then none
      else if inp.i_mode &&& ILARG = 0 then
        if 8 ≤ fbn then none
        else
          let d := inp.i_addr.getD fbn 0
          if d = 0 then none else some d
      else
        if fbn < 7 * ADDRESSES_PER_BLOCK then
          let p := inp.i_addr.getD (fbn / ADDRESSES_PER_BLOCK) 0
          if p = 0 then none
          else
            match fs.readSector p with
            | none => none
            | some buf =>
              let d := wordAt buf (fbn % ADDRESSES_PER_BLOCK)
              if d = 0 then none else some d
        else
          let dp := inp.i_addr.getD 7 0
          if dp = 0 then none
          else
            match fs.readSector dp with
            | none => none
            | some buf1 =>
              let bn := fbn - 7 * ADDRESSES_PER_BLOCK
              let fl := bn / ADDRESSES_PER_BLOCK
              if ADDRESSES_PER_BLOCK ≤ fl then none
              else
                let sp := wordAt buf1 fl
                if sp = 0 then none
                else
                  match fs.readSector sp with
                  | none => none
                  | some buf2 =>
                    let d := wordAt buf2 (bn % ADDRESSES_PER_BLOCK)
                    if d = 0 then none else some d

/-- `file_getblock`: fetch the inode, special-case the empty file, validate
the block index, translate it, read the data sector and return the number
of valid bytes.  `none` models the C function's `-1`; the buffer content is
not part of the returned value (the valid byte count is). -/
def file_getblock (fs : Unixfilesystem) (inumber : Int) (blockNum : Int) :
    Option Nat :=
  match inode_iget fs inumber with
  | none => none
  | some ino =>
    let size := inode_getsize ino
    if size = 0 then some 0
    else
      let numLogical := (size + DISKIMG_SECTOR_SIZE - 1) / DISKIMG_SECTOR_SIZE
      if blockNum < 0 ∨ (numLogical : Int) ≤ blockNum then none
      else
        match inode_indexlookup fs ino blockNum with
        | none => none
        | some d =>
          if d = 0 then none
          else
            match fs.readSector d with
            | none => none
            | some _ =>
              let rem : Int := (size : Int) - DISKIMG_SECTOR_SIZE * blockNum
              if (DISKIMG_SECTOR_SIZE : Int) ≤ rem then
                some DISKIMG_SECTOR_SIZE
              else some rem.toNat

/-- The `strncmp(a, b, n) == 0` test of C: walk at most `n` byte positions,
stopping early at the first mismatch or at a shared terminating zero byte.
A C string is modelled as the list of its bytes before the terminator, so
reading past its end (`headD` of `[]`) yields the terminator 0. -/
def strncmpz : List Nat → List Nat → Nat → Bool
  | _, _, 0 => true
  | a, b, n + 1 =>
    if a.headD 0 = b.headD 0 then
      if a.headD 0 = 0 then true else strncmpz a.tail b.tail n
    else false

/-- The inner entry loop of `directory_findname`: scan `k` consecutive
directory entries of a data sector starting at entry index `i`, skipping
free (zero-inumber) slots, and return the first entry whose name field
matches `name` under `strncmp` limited to the name-field width. -/
def scanEntries (name : List Nat) (buf : List Nat) : Nat → Nat → Option Direntv6
  | _, 0 => none
  | i, k + 1 =>
    let e := decodeDirent buf (i * DIRENT_SIZE)
    if e.d_inumber = 0 then scanEntries name buf (i + 1) k
    else if strncmpz name e.d_name DIRENT_NAME_LEN then some e
    else scanEntries name buf (i + 1) k

/-- The block loop of `directory_findname` (`while total < size`): fetch the
physical sector of logical block `blk`, read it, compute the valid byte
count of this block, check it is a whole number of entries, scan them, and
continue with the next block.  `fuel` bounds the number of iterations; the
C loop adds at least `DIRENT_SIZE` bytes to `total` per iteration (the
checked `valid` is positive and a multiple of the entry size), so the
top-level call's fuel of `size + 1` can never be exhausted before the
loop's own exit condition fires. -/
def findname_loop (fs : Unixfilesystem) (ino : Inode) (name : List Nat)
    (size : Nat) : Nat → Nat → Nat → Option Direntv6
  | 0, _, _ => none
  | fuel + 1, total, blk =>
    if total < size then
      match inode_indexlookup fs ino (blk : Int) with
      | none => none
      | some sec =>
        if sec = 0 then none
        else
          match fs.readSector sec with
          | none => none
          | some buf =>
            let rem : Int := (size : Int) - (DISKIMG_SECTOR_SIZE : Int) * blk
            let valid : Int :=
              if (DISKIMG_SECTOR_SIZE : Int) ≤ rem then DISKIMG_SECTOR_SIZE
              else rem
            if valid ≤ 0 then none
            else if valid.toNat % DIRENT_SIZE ≠ 0 then none
            else
              match scanEntries name buf 0 (valid.toNat / DIRENT_SIZE) with
              | some e => some e
              | none => findname_loop fs ino name size fuel (total + valid.toNat) (blk + 1)
    else none

/-- `directory_findname`: reject over-long names before any I/O, fetch and
validate the directory inode, validate its size, then scan its blocks.
`none` models the C function's negative return; `some e` models success
with the matched entry copied out. -/
def directory_findname (fs : Unixfilesystem) (name : List Nat)
    (dirinumber : Int) : Option Direntv6 :=
  if DIRENT_NAME_LEN < name.length then none
  else
    match inode_iget fs dirinumber with
    | none => none
    | some ino =>
      if ino.i_mode &&& IFMT ≠ IFDIR then none
      else
        let size := inode_getsize ino
        if size = 0 then none
        else if size % DIRENT_SIZE ≠ 0 then none
        else findname_loop fs ino name size (size + 1) 0 0

/-- The block loop of `directory_findname` with the caller's output buffer
threaded through explicitly: the C function writes `*dirEnt` only at the
`memcpy` on the match path, so each failure exit returns the buffer as it
was passed in.  The first component models the C return value (`0`
success, `-1` failure), the second the final buffer contents. -/
def findname_loopF (fs : Unixfilesystem) (ino : Inode) (name : List Nat)
    (size : Nat) (dirEnt : Direntv6) : Nat → Nat → Nat → Int × Direntv6
  | 0, _, _ => (-1, dirEnt)
  | fuel + 1, total, blk =>
    if total < size then
      match inode_indexlookup fs ino (blk : Int) with
      | none => (-1, dirEnt)
      | some sec =>
        if sec = 0 then (-1, dirEnt)
        else
          match fs.readSector sec with
          | none => (-1, dirEnt)
          | some buf =>
            let rem : Int := (size : Int) - (DISKIMG_SECTOR_SIZE : Int) * blk
            let valid : Int :=
              if (DISKIMG_SECTOR_SIZE : Int) ≤ rem then DISKIMG_SECTOR_SIZE
              else rem
            if valid ≤ 0 then (-1, dirEnt)
            else if valid.toNat % DIRENT_SIZE ≠ 0 then (-1, dirEnt)
            else
              match scanEntries name buf 0 (valid.toNat / DIRENT_SIZE) with
              | some e => (0, e)
              | none => findname_loopF fs ino name size dirEnt fuel (total + valid.toNat) (blk + 1)
    else (-1, dirEnt)

/-- `directory_findname` with the caller-supplied entry buffer threaded
through, mirroring the out-parameter of the C signature. -/
def directory_findname_frame (fs : Unixfilesystem) (name : List Nat)
    (dirinumber : Int) (dirEnt : Direntv6) : Int × Direntv6 :=
  if DIRENT_NAME_LEN < name.length then (-1, dirEnt)
  else
    match inode_iget fs dirinumber with
    | none => (-1, dirEnt)
    | some ino =>
      if ino.i_mode &&& IFMT ≠ IFDIR then (-1, dirEnt)
      else
        let size := inode_getsize ino
        if size = 0 then (-1, dirEnt)
        else if size % DIRENT_SIZE ≠ 0 then (-1, dirEnt)
        else findname_loopF fs ino name size dirEnt (size + 1) 0 0

/-- Accumulator pass of `tokens`: split a byte string on `'/'` (byte 47),
dropping empty components, as `strtok(path, "/")` does. -/
def tokensAux : List Nat → List Nat → List (List Nat)
  | [], acc => if acc.isEmpty then [] else [acc.reverse]
  | c :: rest, acc =>
    if c = 47 then
      if acc.isEmpty then tokensAux rest []
      else acc.reverse :: tokensAux rest []
    else tokensAux rest (c :: acc)

/-- The ordered non-empty components of a pathname, as produced by the
`strtok(path_copy, "/")` loop of `pathname_lookup`. -/
def tokens (s : List Nat) : List (List Nat) :=
  tokensAux s []

/-- The component loop of `pathname_lookup`: for each component, fetch the
current inode, require it to be a directory, look the component up in it,
and continue from the bound inumber. -/
def resolve_loop (fs : Unixfilesystem) : List (List Nat) → Int → Option Int
  | [], cur => some cur
  | comp :: rest, cur =>
    match inode_iget fs cur with
    | none => none
    | some ino =>
      if ino.i_mode &&& IFMT ≠ IFDIR then none
      else
        match directory_findname fs comp cur with
        | none => none
        | some e => resolve_loop fs rest (e.d_inumber : Int)

/-- `pathname_lookup`: reject empty or non-absolute input, reject pathnames
that do not fit the 256-byte local copy, special-case `"/"`, and otherwise
resolve the components from the root inode.  A pathname is modelled as the
byte list of the C string (so `strlen` is its length). -/
def pathname_lookup (fs : Unixfilesystem) (pathname : List Nat) : Option Int :=
  if pathname.isEmpty then none
  else if pathname.headD 0 ≠ 47 then none
  else if 256 < pathname.length + 1 then none
  else if pathname = [47] then some ROOT_INUMBER
  else resolve_loop fs (tokens pathname) ROOT_INUMBER

/-- Large-file block translation as the spec words it (§4.1 of the spec):
below `7 × addressesPerSector`, one single-indirect hop through the slot
`index / addressesPerSector`; from there on, two hops through the
double-indirect slot 7 with outer index `(index − 7×aps) / aps` and inner
index `(index − 7×aps) % aps`; any zero pointer, zero resolved address or
failed sector read fails. -/
def translateBlock_spec_large (fs : Unixfilesystem) (inp : Inode) (i : Nat) :
    Option Nat :=
  if i < 7 * ADDRESSES_PER_BLOCK then
    let p := inp.i_addr.getD (i / ADDRESSES_PER_BLOCK) 0
    if p = 0 then none
    else
      match fs.readSector p with
      | none => none
      | some buf =>
        let d := wordAt buf (i % ADDRESSES_PER_BLOCK)
        if d = 0 then none else some d
  else
    let dp := inp.i_addr.getD 7 0
    if dp = 0 then none
    else
      match fs.readSector dp with
      | none => none
      | some buf1 =>
        let outer := (i - 7 * ADDRESSES_PER_BLOCK) / ADDRESSES_PER_BLOCK
        let sp := wordAt buf1 outer
        if sp = 0 then none
        else
          match fs.readSector sp with
          | none => none
          | some buf2 =>
            let d := wordAt buf2 ((i - 7 * ADDRESSES_PER_BLOCK) % ADDRESSES_PER_BLOCK)
            if d = 0 then none else some d

/-- Little-endian byte pair of a 16-bit word, for building test sectors. -/
def w16 (x : Nat) : List Nat := [x % 256, x / 256]

/-- Raw 32-byte image of one inode record (mode, zero link/uid/gid bytes,
the split size fields, the 8 address slots, zeroed time stamps). -/
def inodeBytes (mode size0 size1 : Nat) (addr : List Nat) : List Nat :=
  w16 mode ++ [0, 0, 0, size0] ++ w16 size1 ++ addr.flatMap w16 ++ List.replicate 8 0

/-- Raw 16-byte image of one directory entry: the inumber word followed by
the name padded with zero bytes to the 14-byte field. -/
def direntBytes (inum : Nat) (name : List Nat) : List Nat :=
  w16 inum ++ name ++ List.replicate (DIRENT_NAME_LEN - name.length) 0

/-- Inode-list sector of the concrete test image: inode 1 is the root
directory (one data block at sector 100, 16 bytes), inode 3 a zero-size
regular file, inode 4 an empty directory, inode 5 a directory with a
corrupt size (10 bytes), inode 6 the three-entry scenario directory
(sector 101, 48 bytes), inode 7 a 700-byte regular file (sectors 102
and 103). -/
def sector2W : List Nat :=
  inodeBytes 49152 0 16 [100, 0, 0, 0, 0, 0, 0, 0] ++
  List.replicate 32 0 ++
  inodeBytes 32768 0 0 [0, 0, 0, 0, 0, 0, 0, 0] ++
  inodeBytes 49152 0 0 [0, 0, 0, 0, 0, 0, 0, 0] ++
  inodeBytes 49152 0 10 [0, 0, 0, 0, 0, 0, 0, 0] ++
  inodeBytes 49152 0 48 [101, 0, 0, 0, 0, 0, 0, 0] ++
  inodeBytes 32768 0 700 [102, 103, 0, 0, 0, 0, 0, 0] ++
  List.replicate 288 0

/-- Root directory data: the single entry `("a" → inode 3)`. -/
def sector100W : List Nat :=
  direntBytes 3 [97] ++ List.replicate 496 0

/-- Scenario directory data: entries `("lib" → 2)`, a freed slot, and
`("bin" → 5)`. -/
def sector101W : List Nat :=
  direntBytes 2 [108, 105, 98] ++ direntBytes 0 [] ++
  direntBytes 5 [98, 105, 110] ++ List.replicate 464 0

/-- An all-zero data sector. -/
def sectorZW : List Nat := List.replicate 512 0

/-- The concrete test filesystem image used by the witnesses. -/
def fsW : Unixfilesystem where
  s_isize := 1
  readSector := fun n =>
    if n = 2 then some sector2W
    else if n = 100 then some sector100W
    else if n = 101 then some sector101W
    else if n = 102 then some sectorZW
    else if n = 103 then some sectorZW
    else none

/-- A filesystem whose every sector read fails. -/
def fsNull : Unixfilesystem where
  s_isize := 1
  readSector := fun _ => none

/-- Decoded root-directory inode of the test image. -/
def ino1W : Inode := ⟨49152, 0, 16, [100, 0, 0, 0, 0, 0, 0, 0]⟩

/-- Decoded zero-size regular-file inode 3 of the test image. -/
def ino3W : Inode := ⟨32768, 0, 0, [0, 0, 0, 0, 0, 0, 0, 0]⟩

/-- Decoded empty-directory inode 4 of the test image. -/
def ino4W : Inode := ⟨49152, 0, 0, [0, 0, 0, 0, 0, 0, 0, 0]⟩

/-- Decoded corrupt-size directory inode 5 of the test image. -/
def ino5W : Inode := ⟨49152, 0, 10, [0, 0, 0, 0, 0, 0, 0, 0]⟩

/-- Decoded scenario-directory inode 6 of the test image. -/
def ino6W : Inode := ⟨49152, 0, 48, [101, 0, 0, 0, 0, 0, 0, 0]⟩

/-- Decoded 700-byte-file inode 7 of the test image. -/
def ino7W : Inode := ⟨32768, 0, 700, [102, 103, 0, 0, 0, 0, 0, 0]⟩

/-- A zero-size small-file inode whose address slot 1 is nonetheless 42;
exhibits the empty-file hole in `inode_indexlookup`. -/
def inoC1 : Inode := ⟨0, 0, 0, [0, 42, 0, 0, 0, 0, 0, 0]⟩

/-- A large-file inode of one block (size 512) with a live single-indirect
pointer at slot 0, for the C2 counterexample. -/
def inoC2 : Inode := ⟨4096, 0, 512, [200, 0, 0, 0, 0, 0, 0, 0]⟩

/-- Image for the C2 counterexample and witness: sector 200 is an address
table whose word 0 is 77 and word 1 is 99. -/
def fsC2 : Unixfilesystem where
  s_isize := 1
  readSector := fun n =>
    if n = 200 then some ([77, 0, 99, 0] ++ List.replicate 508 0) else none


/-- C1 (code bug): for an inode whose computed size is zero,
`inode_indexlookup` is claimed (and the code's own comments intend) to fail
at every logical block index, but the empty-file test only covers index 0
and the end-of-file bound check is guarded by `file_size_bytes > 0`; at
index 1 of the zero-size small-file inode `inoC1` the lookup falls through
to the direct-slot path and returns disk sector 42. -/
theorem c1_zero_size_lookup_returns_sector :
    inode_getsize inoC1 = 0 ∧ inode_indexlookup fsNull inoC1 1 = some 42 :=
  ⟨rfl, rfl⟩

/-- C2 counterexample: the claim's first half quantifies over every index
`i < 7 × addressesPerSector` without restricting `i` to the file's block
count.  For the one-block large file `inoC2` at index 1, the claimed
single-indirect resolution yields sector 99, but the code fails its
end-of-file bound check first and returns failure. -/
theorem c2_unrestricted_index_counterexample :
    inode_indexlookup fsC2 inoC2 1 = none ∧
      translateBlock_spec_large fsC2 inoC2 1 = some 99 ∧
      (1 : Nat) < 7 * ADDRESSES_PER_BLOCK ∧
      inoC2.i_mode &&& ILARG ≠ 0 :=
  ⟨rfl, rfl, by decide, by decide⟩

/-- C2 as amended: for every large-flag inode with on-disk field widths and
every logical block index within the file's block count,
`inode_indexlookup` computes exactly the spec's single-indirect /
double-indirect resolution `translateBlock_spec_large`. -/
theorem c2_large_file_translation (fs : Unixfilesystem) (inp : Inode) (i : Nat)
    (hs0 : inp.i_size0 < 256) (hs1 : inp.i_size1 < 65536)
    (hlarge : inp.i_mode &&& ILARG ≠ 0)
    (hib : i < (inode_getsize inp + DISKIMG_SECTOR_SIZE - 1) / DISKIMG_SECTOR_SIZE) :
    inode_indexlookup fs inp (i : Int) = translateBlock_spec_large fs inp i := by
  have hsz24 : inode_getsize inp < 16777216 := by
    have h1 : inp.i_size1 < 2 ^ 16 := by norm_num; omega
    have h0 : inp.i_size0 < 2 ^ 8 := by norm_num; omega
    have h := @Nat.append_lt inp.i_size1 inp.i_size0 16 8 h1 h0
    have e : (2 : Nat) ^ (16 + 8) = 16777216 := by norm_num
    rw [e] at h
    simpa [inode_getsize] using h
  have hnb : (inode_getsize inp + DISKIMG_SECTOR_SIZE - 1) / DISKIMG_SECTOR_SIZE ≤ 32768 := by
    rw [DISKIMG_SECTOR_SIZE]
    omega
  have hi32 : i < 32768 := lt_of_lt_of_le hib hnb
  have hszpos : 0 < inode_getsize inp := by
    rcases Nat.eq_zero_or_pos (inode_getsize inp) with h0 | h
    · rw [h0] at hib
      simp [DISKIMG_SECTOR_SIZE] at hib
    · exact h
  have hfl : ¬ ADDRESSES_PER_BLOCK ≤ (i - 7 * ADDRESSES_PER_BLOCK) / ADDRESSES_PER_BLOCK := by
    rw [ADDRESSES_PER_BLOCK]
    rw [Nat.le_div_iff_mul_le (by norm_num)]
    omega
  unfold inode_indexlookup translateBlock_spec_large
  rw [if_neg (by omega : ¬ (i : Int) < 0)]
  simp only [Int.toNat_natCast]
  rw [if_neg (by omega : ¬ (inode_getsize inp = 0 ∧ i = 0))]
  rw [if_neg (by push_neg; intro; omega : ¬ (0 < inode_getsize inp ∧
    (inode_getsize inp + DISKIMG_SECTOR_SIZE - 1) / DISKIMG_SECTOR_SIZE ≤ i))]
  rw [if_neg hlarge]
  by_cases hcase : i < 7 * ADDRESSES_PER_BLOCK
  · rw [if_pos hcase, if_pos hcase]
  · rw [if_neg hcase, if_neg hcase]
    simp only [if_neg hfl]

/-- Witness for C2: at index 0 of the one-block large file `inoC2`, the
code and the spec's resolution agree, both yielding data sector 77. -/
theorem c2_large_file_translation_witness :
    inode_indexlookup fsC2 inoC2 0 = translateBlock_spec_large fsC2 inoC2 0 ∧
      inode_indexlookup fsC2 inoC2 0 = some 77 :=
  ⟨c2_large_file_translation fsC2 inoC2 0 (by decide) (by decide) (by decide)
    (by decide), by rfl⟩

/-- C5: for every fetchable inode of computed size zero, `file_getblock`
returns zero valid bytes at every requested block index and never fails. -/
theorem c5_getblock_zero_size_file (fs : Unixfilesystem) (inumber : Int)
    (ino : Inode) (hget : inode_iget fs inumber = some ino)
    (hsz : inode_getsize ino = 0) (blockNum : Int) :
    file_getblock fs inumber blockNum = some 0 := by
  unfold file_getblock
  rw [hget]
  simp [hsz]

/-- Witness for C5: block reads of the zero-size file at inode 3 of the
test image, at indices 0 and even a negative one, both return 0 bytes. -/
theorem c5_getblock_zero_size_file_witness :
    file_getblock fsW 3 0 = some 0 ∧ file_getblock fsW 3 (-2) = some 0 :=
  ⟨c5_getblock_zero_size_file fsW 3 ino3W rfl rfl 0,
   c5_getblock_zero_size_file fsW 3 ino3W rfl rfl (-2)⟩

/-- C6: `inode_iget` succeeds exactly when the inumber lies between the
root inumber and `s_isize × inodes_per_block`, the inode-list sector
computed from `inumber − 1` reads successfully, and the copied record's
allocation flag is set. -/
theorem c6_iget_success_iff (fs : Unixfilesystem) (inumber : Int) :
    (∃ ino, inode_iget fs inumber = some ino) ↔
      ROOT_INUMBER ≤ inumber ∧
        inumber ≤ ((fs.s_isize * INODES_PER_BLOCK : Nat) : Int) ∧
        ∃ buf,
          fs.readSector
              (INODE_START_SECTOR + (inumber - 1).toNat / INODES_PER_BLOCK) =
            some buf ∧
          (decodeInode buf
                (((inumber - 1).toNat % INODES_PER_BLOCK) * INODE_SIZE)).i_mode &&&
              IALLOC ≠ 0 := by
  simp only [inode_iget]
  by_cases h1 : inumber < ROOT_INUMBER
  · simp [h1]
  · by_cases h2 : ((fs.s_isize * INODES_PER_BLOCK : Nat) : Int) < inumber
    · rw [if_neg h1, if_pos h2]
      simp only [not_lt] at h1
      constructor
      · rintro ⟨ino, h⟩
        cases h
      · rintro ⟨-, hle, -⟩
        omega
    · rw [if_neg h1, if_neg h2]
      generalize hr :
        fs.readSector (INODE_START_SECTOR + (inumber - 1).toNat / INODES_PER_BLOCK) = r
      cases r with
      | none => simp [not_lt.mp h1, not_lt.mp h2]
      | some buf =>
        dsimp only
        have hge : ROOT_INUMBER ≤ inumber := not_lt.mp h1
        have hle : inumber ≤ ((fs.s_isize * INODES_PER_BLOCK : Nat) : Int) := not_lt.mp h2
        by_cases ha : (decodeInode buf
            (((inumber - 1).toNat % INODES_PER_BLOCK) * INODE_SIZE)).i_mode &&& IALLOC = 0
        · rw [if_pos ha]
          constructor
          · rintro ⟨ino, h⟩
            cases h
          · rintro ⟨-, -, buf2, hb, hflag⟩
            injection hb with e
            subst e
            exact absurd ha hflag
        · rw [if_neg ha]
          constructor
          · intro _
            exact ⟨hge, hle, buf, rfl, ha⟩
          · intro _
            exact ⟨_, rfl⟩

/-- C10: `pathname_lookup` fails for every pathname of 256 bytes or more,
on every filesystem image: the input no longer fits the 256-byte local
copy used for tokenization. -/
theorem c10_pathname_length_bound (fs : Unixfilesystem) (p : List Nat)
    (h : 256 ≤ p.length) : pathname_lookup fs p = none := by
  unfold pathname_lookup
  split
  · rfl
  · split
    · rfl
    · rw [if_pos (by omega)]

/-- Witness for C10: a 256-byte absolute pathname is rejected on the test
image. -/
theorem c10_pathname_length_bound_witness :
    pathname_lookup fsW (47 :: List.replicate 255 97) = none :=
  c10_pathname_length_bound fsW _
    (by rw [List.length_cons, List.length_replicate])

/-- C4: resolving the pathname "/" yields the root inumber on every image
(so no disk access is involved); and whenever a resolved non-final
component's inode is fetched and its type bits are not the directory type,
resolution fails, for every possible remainder of the path (the following
components are never looked up).  The last conjunct instantiates the loop
property at `pathname_lookup` itself for a path whose first component
resolves to a non-directory. -/
theorem c4_root_and_nondirectory_component :
    (∀ fs : Unixfilesystem, pathname_lookup fs [47] = some ROOT_INUMBER) ∧
    (∀ (fs : Unixfilesystem) (c : List Nat) (rest : List (List Nat)) (cur : Int)
        (ino : Inode) (e : Direntv6) (ino2 : Inode), rest ≠ [] →
      inode_iget fs cur = some ino → ino.i_mode &&& IFMT = IFDIR →
      directory_findname fs c cur = some e →
      inode_iget fs (e.d_inumber : Int) = some ino2 →
      ino2.i_mode &&& IFMT ≠ IFDIR →
      resolve_loop fs (c :: rest) cur = none) ∧
    (∀ (fs : Unixfilesystem) (p c : List Nat) (rest : List (List Nat))
        (ino1 : Inode) (e : Direntv6) (ino2 : Inode),
      p.headD 0 = 47 → p.length + 1 ≤ 256 → tokens p = c :: rest → rest ≠ [] →
      inode_iget fs ROOT_INUMBER = some ino1 → ino1.i_mode &&& IFMT = IFDIR →
      directory_findname fs c ROOT_INUMBER = some e →
      inode_iget fs (e.d_inumber : Int) = some ino2 →
      ino2.i_mode &&& IFMT ≠ IFDIR →
      pathname_lookup fs p = none) := by
  have hloop : ∀ (fs : Unixfilesystem) (c : List Nat) (rest : List (List Nat))
      (cur : Int) (ino : Inode) (e : Direntv6) (ino2 : Inode), rest ≠ [] →
      inode_iget fs cur = some ino → ino.i_mode &&& IFMT = IFDIR →
      directory_findname fs c cur = some e →
      inode_iget fs (e.d_inumber : Int) = some ino2 →
      ino2.i_mode &&& IFMT ≠ IFDIR →
      resolve_loop fs (c :: rest) cur = none := by
    intro fs c rest cur ino e ino2 hne hget hdir hfind hget2 hnd
    obtain ⟨r, rs, rfl⟩ := List.exists_cons_of_ne_nil hne
    simp [resolve_loop, hget, hget2, hfind, hdir, hnd]
  refine ⟨fun fs => rfl, hloop, ?_⟩
  intro fs p c rest ino1 e ino2 hhd hlen htok hne hget1 hdir1 hfind hget2 hnd
  have hpne : p ≠ [] := by
    intro h
    subst h
    simp at hhd
  have hp47 : p ≠ [47] := by
    intro h
    subst h
    rw [show tokens [47] = [] from rfl] at htok
    cases htok
  unfold pathname_lookup
  rw [if_neg (by simp [hpne]), if_neg (not_not_intro hhd),
    if_neg (by omega), if_neg hp47, htok]
  exact hloop fs c rest ROOT_INUMBER ino1 e ino2 hne hget1 hdir1 hfind hget2 hnd

/-- Witness for C4: on the test image, "/" resolves to the root inumber,
and "/a/b" fails because "a" is inode 3, a regular file, before "b" is
ever considered. -/
theorem c4_root_and_nondirectory_component_witness :
    pathname_lookup fsW [47] = some ROOT_INUMBER ∧
      pathname_lookup fsW [47, 97, 47, 98] = none := by
  refine ⟨c4_root_and_nondirectory_component.1 fsW, ?_⟩
  exact c4_root_and_nondirectory_component.2.2 fsW [47, 97, 47, 98] [97] [[98]]
    ino1W ⟨3, [97, 0, 0, 0, 0, 0, 0, 0, 0, 0, 0, 0, 0, 0]⟩ ino3W
    (by rfl) (by norm_num) (by rfl) (by simp)
    (by rfl) (by decide) (by rfl) (by rfl) (by decide)

/-- A successful `file_getblock` call on a non-empty file returns exactly
`min sectorSize (size − sectorSize·blockNum)` valid bytes. -/
theorem file_getblock_some_value (fs : Unixfilesystem) (inumber : Int)
    (ino : Inode) (hget : inode_iget fs inumber = some ino)
    (hpos : 0 < inode_getsize ino) (j w : Nat)
    (hj : j < (inode_getsize ino + DISKIMG_SECTOR_SIZE - 1) / DISKIMG_SECTOR_SIZE)
    (hw : file_getblock fs inumber (j : Int) = some w) :
    w = min DISKIMG_SECTOR_SIZE (inode_getsize ino - DISKIMG_SECTOR_SIZE * j) := by
  simp only [file_getblock, hget, DISKIMG_SECTOR_SIZE] at hw ⊢
  rw [DISKIMG_SECTOR_SIZE] at hj
  rw [if_neg (by omega : ¬ inode_getsize ino = 0)] at hw
  rw [if_neg (by push_neg; omega :
    ¬ ((j : Int) < 0 ∨ (((inode_getsize ino + 512 - 1) / 512 : Nat) : Int) ≤ (j : Int)))] at hw
  cases hl : inode_indexlookup fs ino (j : Int) with
  | none => rw [hl] at hw; cases hw
  | some d =>
    rw [hl] at hw
    dsimp only at hw
    by_cases hd : d = 0
    · rw [if_pos hd] at hw; cases hw
    · rw [if_neg hd] at hw
      cases hr : fs.readSector d with
      | none => rw [hr] at hw; cases hw
      | some buf =>
        rw [hr] at hw
        dsimp only at hw
        split at hw
        · injection hw with h
          omega
        · injection hw with h
          omega

/-- Arithmetic core of the round-trip property: the per-block valid byte
counts of a file of `s > 0` bytes sum to `s`. -/
theorem sum_min_sector : ∀ s : Nat, 0 < s →
    (∑ j in Finset.range ((s + 512 - 1) / 512), min 512 (s - 512 * j)) = s := by
  intro s
  induction s using Nat.strong_induction_on with
  | _ s ih =>
    intro hs
    by_cases hle : s ≤ 512
    · have hn : (s + 512 - 1) / 512 = 1 := by omega
      rw [hn, Finset.sum_range_one]
      omega
    · have hn : (s + 512 - 1) / 512 = ((s - 512) + 512 - 1) / 512 + 1 := by omega
      rw [hn, Finset.sum_range_succ']
      have hcong : ∀ j ∈ Finset.range (((s - 512) + 512 - 1) / 512),
          min 512 (s - 512 * (j + 1)) = min 512 ((s - 512) - 512 * j) := by
        intro j _
        omega
      rw [Finset.sum_congr rfl hcong, ih (s - 512) (by omega) (by omega)]
      omega

/-- C3: for a non-empty file all of whose logical blocks read successfully,
the valid byte counts returned by `file_getblock` over indices
`0 .. ceil(size/sectorSize) − 1` sum to the file size; every count is a
full sector when the size is an exact multiple of the sector size, and
otherwise a count is short exactly at the last index. -/
theorem c3_getblock_counts_sum_to_size (fs : Unixfilesystem) (inumber : Int)
    (ino : Inode) (hget : inode_iget fs inumber = some ino)
    (hpos : 0 < inode_getsize ino)
    (hall : ∀ j : Nat,
      j < (inode_getsize ino + DISKIMG_SECTOR_SIZE - 1) / DISKIMG_SECTOR_SIZE →
      (file_getblock fs inumber (j : Int)).isSome = true) :
    (∑ j in Finset.range
        ((inode_getsize ino + DISKIMG_SECTOR_SIZE - 1) / DISKIMG_SECTOR_SIZE),
        (file_getblock fs inumber (j : Int)).getD 0) = inode_getsize ino ∧
    (if DISKIMG_SECTOR_SIZE ∣ inode_getsize ino then
      ∀ j < (inode_getsize ino + DISKIMG_SECTOR_SIZE - 1) / DISKIMG_SECTOR_SIZE,
        (file_getblock fs inumber (j : Int)).getD 0 = DISKIMG_SECTOR_SIZE
    else
      ∀ j < (inode_getsize ino + DISKIMG_SECTOR_SIZE - 1) / DISKIMG_SECTOR_SIZE,
        ((file_getblock fs inumber (j : Int)).getD 0 < DISKIMG_SECTOR_SIZE ↔
          j = (inode_getsize ino + DISKIMG_SECTOR_SIZE - 1) / DISKIMG_SECTOR_SIZE - 1)) := by
  have hcnt : ∀ j : Nat,
      j < (inode_getsize ino + DISKIMG_SECTOR_SIZE - 1) / DISKIMG_SECTOR_SIZE →
      (file_getblock fs inumber (j : Int)).getD 0 =
        min DISKIMG_SECTOR_SIZE (inode_getsize ino - DISKIMG_SECTOR_SIZE * j) := by
    intro j hj
    obtain ⟨w, hw⟩ := Option.isSome_iff_exists.mp (hall j hj)
    rw [hw, Option.getD_some]
    exact file_getblock_some_value fs inumber ino hget hpos j w hj hw
  constructor
  · rw [Finset.sum_congr rfl fun j hj => hcnt j (Finset.mem_range.mp hj)]
    have h := sum_min_sector (inode_getsize ino) hpos
    simpa [DISKIMG_SECTOR_SIZE] using h
  · split
    · intro j hj
      rw [hcnt j hj]
      rw [DISKIMG_SECTOR_SIZE] at *
      omega
    · intro j hj
      rw [hcnt j hj]
      rw [DISKIMG_SECTOR_SIZE] at *
      omega

/-- Witness for C3: the 700-byte file at inode 7 of the test image has two
logical blocks whose valid byte counts (512 and 188) sum to 700, the
second one short. -/
theorem c3_getblock_counts_sum_to_size_witness :
    (∑ j in Finset.range
        ((inode_getsize ino7W + DISKIMG_SECTOR_SIZE - 1) / DISKIMG_SECTOR_SIZE),
        (file_getblock fsW 7 (j : Int)).getD 0) = inode_getsize ino7W ∧
    (if DISKIMG_SECTOR_SIZE ∣ inode_getsize ino7W then
      ∀ j < (inode_getsize ino7W + DISKIMG_SECTOR_SIZE - 1) / DISKIMG_SECTOR_SIZE,
        (file_getblock fsW 7 (j : Int)).getD 0 = DISKIMG_SECTOR_SIZE
    else
      ∀ j < (inode_getsize ino7W + DISKIMG_SECTOR_SIZE - 1) / DISKIMG_SECTOR_SIZE,
        ((file_getblock fsW 7 (j : Int)).getD 0 < DISKIMG_SECTOR_SIZE ↔
          j = (inode_getsize ino7W + DISKIMG_SECTOR_SIZE - 1) / DISKIMG_SECTOR_SIZE - 1)) :=
  c3_getblock_counts_sum_to_size fsW 7 ino7W rfl (by decide) (by decide)

/-- C7: `directory_findname` fails before scanning any entry when the
search name exceeds the entry name width (for every image, hence before
any disk I/O), when the fetched inode's type bits are not the directory
type, when the directory size is zero, or when the size is not a multiple
of the directory-entry size. -/
theorem c7_findname_early_rejections (fs : Unixfilesystem) (name : List Nat)
    (dirinumber : Int) :
    (DIRENT_NAME_LEN < name.length → directory_findname fs name dirinumber = none) ∧
    (∀ ino, inode_iget fs dirinumber = some ino →
      (ino.i_mode &&& IFMT ≠ IFDIR → directory_findname fs name dirinumber = none) ∧
      (inode_getsize ino = 0 → directory_findname fs name dirinumber = none) ∧
      (inode_getsize ino % DIRENT_SIZE ≠ 0 →
        directory_findname fs name dirinumber = none)) := by
  refine ⟨fun h => by rw [directory_findname, if_pos h], fun ino hget => ⟨?_, ?_, ?_⟩⟩
  · intro hnd
    unfold directory_findname
    split
    · rfl
    · rw [hget]
      dsimp only
      rw [if_pos hnd]
  · intro hsz
    unfold directory_findname
    split
    · rfl
    · rw [hget]
      dsimp only
      by_cases hd : ino.i_mode &&& IFMT ≠ IFDIR
      · rw [if_pos hd]
      · rw [if_neg hd, if_pos hsz]
  · intro hmod
    unfold directory_findname
    split
    · rfl
    · rw [hget]
      dsimp only
      by_cases hd : ino.i_mode &&& IFMT ≠ IFDIR
      · rw [if_pos hd]
      · rw [if_neg hd]
        by_cases hsz : inode_getsize ino = 0
        · rw [if_pos hsz]
        · rw [if_neg hsz, if_pos hmod]

/-- Witness for C7: on the test image, a 15-byte name is rejected, a lookup
in the non-directory inode 3 fails, the empty directory inode 4 fails, and
the corrupt-size directory inode 5 fails. -/
theorem c7_findname_early_rejections_witness :
    directory_findname fsW
        [97, 97, 97, 97, 97, 97, 97, 97, 97, 97, 97, 97, 97, 97, 97] 6 = none ∧
    directory_findname fsW [97] 3 = none ∧
    directory_findname fsW [97] 4 = none ∧
    directory_findname fsW [97] 5 = none := by
  refine ⟨(c7_findname_early_rejections fsW _ 6).1 (by decide), ?_, ?_, ?_⟩
  · exact ((c7_findname_early_rejections fsW [97] 3).2 ino3W rfl).1 (by decide)
  · exact (((c7_findname_early_rejections fsW [97] 4).2 ino4W rfl).2.1 (by decide))
  · exact (((c7_findname_early_rejections fsW [97] 5).2 ino5W rfl).2.2 (by decide))

/-- The entry scan of one directory block returns the first match, in entry
order, of the combined "non-free and name-equal" test. -/
theorem scanEntries_eq (name buf : List Nat) : ∀ (k i : Nat),
    scanEntries name buf i k =
      ((List.range' i k).map fun j => decodeDirent buf (j * DIRENT_SIZE)).find?
        fun e => !(e.d_inumber == 0) && strncmpz name e.d_name DIRENT_NAME_LEN := by
  intro k
  induction k with
  | zero => intro i; rfl
  | succ k ih =>
    intro i
    rw [List.range'_succ, List.map_cons]
    by_cases h0 : (decodeDirent buf (i * DIRENT_SIZE)).d_inumber = 0
    · rw [List.find?_cons_of_neg _ (by simp [h0])]
      simp only [scanEntries, if_pos h0]
      exact ih (i + 1)
    · by_cases hm :
        strncmpz name (decodeDirent buf (i * DIRENT_SIZE)).d_name DIRENT_NAME_LEN = true
      · rw [List.find?_cons_of_pos _ (by simp [h0, hm])]
        simp only [scanEntries, if_neg h0, if_pos hm]
      · rw [List.find?_cons_of_neg _ (by simp [h0, hm])]
        simp only [scanEntries, if_neg h0, if_neg hm]
        exact ih (i + 1)

/-- Once the processed byte count has reached the directory size, the block
loop stops and reports not-found. -/
theorem findname_loop_done (fs : Unixfilesystem) (ino : Inode) (name : List Nat)
    (size fuel total blk : Nat) (h : size ≤ total) :
    findname_loop fs ino name size fuel total blk = none := by
  cases fuel with
  | zero => rfl
  | succ fuel =>
    simp only [findname_loop]
    rw [if_neg (by omega)]

/-- The block loop of `directory_findname`, over blocks whose physical
sectors all resolve and read, returns the first matching entry of the
concatenated per-block entry lists (on-disk order), and fails when none
matches. -/
theorem findname_loop_eq (fs : Unixfilesystem) (ino : Inode) (name : List Nat)
    (size : Nat) (secOf : Nat → Nat) (bufOf : Nat → List Nat)
    (hmul : size % 16 = 0)
    (hblocks : ∀ b, b < (size + 512 - 1) / 512 →
      inode_indexlookup fs ino (b : Int) = some (secOf b) ∧ secOf b ≠ 0 ∧
        fs.readSector (secOf b) = some (bufOf b)) :
    ∀ fuel blk, (size + 512 - 1) / 512 ≤ blk + fuel →
      findname_loop fs ino name size fuel (512 * blk) blk =
        ((List.range' blk ((size + 512 - 1) / 512 - blk)).flatMap fun b =>
            (List.range (min 512 (size - 512 * b) / DIRENT_SIZE)).map fun j =>
              decodeDirent (bufOf b) (j * DIRENT_SIZE)).find?
          fun e => !(e.d_inumber == 0) && strncmpz name e.d_name DIRENT_NAME_LEN := by
  intro fuel
  induction fuel with
  | zero =>
    intro blk h
    rw [show (size + 512 - 1) / 512 - blk = 0 from by omega]
    rfl
  | succ fuel ih =>
    intro blk h
    by_cases hblk : blk < (size + 512 - 1) / 512
    · obtain ⟨hl, hs0, hr⟩ := hblocks blk hblk
      have hlt : 512 * blk < size := by omega
      simp only [findname_loop]
      rw [if_pos hlt, hl]
      dsimp only
      rw [if_neg hs0, hr]
      dsimp only
      simp only [DISKIMG_SECTOR_SIZE, Nat.cast_ofNat]
      have hV : (if (512 : Int) ≤ (size : Int) - 512 * (blk : Int)
            then (512 : Int) else (size : Int) - 512 * (blk : Int)).toNat
          = min 512 (size - 512 * blk) := by
        split <;> omega
      have hVpos : ¬ ((if (512 : Int) ≤ (size : Int) - 512 * (blk : Int)
            then (512 : Int) else (size : Int) - 512 * (blk : Int)) ≤ 0) := by
        have h := hV
        omega
      have hVmod : (if (512 : Int) ≤ (size : Int) - 512 * (blk : Int)
            then (512 : Int) else (size : Int) - 512 * (blk : Int)).toNat %
          DIRENT_SIZE = 0 := by
        have h := hV
        simp only [DIRENT_SIZE]
        omega
      rw [if_neg hVpos, if_neg (not_not_intro hVmod), scanEntries_eq,
        ← List.range_eq_range', hV]
      rw [show (size + 512 - 1) / 512 - blk = ((size + 512 - 1) / 512 - (blk + 1)) + 1
        from by omega]
      rw [List.range'_succ, List.flatMap_cons, List.find?_append]
      cases hf : ((List.range (min 512 (size - 512 * blk) / DIRENT_SIZE)).map
          fun j => decodeDirent (bufOf blk) (j * DIRENT_SIZE)).find?
          (fun e => !(e.d_inumber == 0) && strncmpz name e.d_name DIRENT_NAME_LEN) with
      | some e =>
        rfl
      | none =>
        rw [Option.none_or]
        dsimp only
        by_cases hlast : blk + 1 < (size + 512 - 1) / 512
        · rw [show 512 * blk + min 512 (size - 512 * blk) = 512 * (blk + 1)
            from by omega]
          exact ih (blk + 1) (by omega)
        · rw [show (size + 512 - 1) / 512 - (blk + 1) = 0 from by omega]
          rw [findname_loop_done fs ino name size fuel
            (512 * blk + min 512 (size - 512 * blk)) (blk + 1) (by omega)]
          rfl
    · rw [show (size + 512 - 1) / 512 - blk = 0 from by omega]
      rw [findname_loop_done fs ino name size (fuel + 1) (512 * blk) blk (by omega)]
      rfl

/-- Characterization of the fixed-width name comparison against a stored
name field of width `n` (the name zero-padded to `n` bytes): for zero-free
names fitting the field, the comparison succeeds exactly on equality — so
padding causes no false negatives, a name never matches the unused tail of
a shorter stored name, and a full-width name still matches. -/
theorem strncmpz_padded : ∀ (n : Nat) (s e : List Nat),
    (∀ b ∈ s, b ≠ 0) → (∀ b ∈ e, b ≠ 0) → s.length ≤ n → e.length ≤ n →
    (strncmpz s (e ++ List.replicate (n - e.length) 0) n = true ↔ s = e) := by
  intro n
  induction n with
  | zero =>
    intro s e _ _ hsl hel
    have hs0 : s = [] := List.eq_nil_of_length_eq_zero (by omega)
    have he0 : e = [] := List.eq_nil_of_length_eq_zero (by omega)
    subst hs0
    subst he0
    simp [strncmpz]
  | succ n ih =>
    intro s e hs he hsl hel
    cases e with
    | nil =>
      cases s with
      | nil => simp [strncmpz, List.replicate_succ]
      | cons c s' =>
        have hc : c ≠ 0 := hs c (List.mem_cons_self c s')
        simp [strncmpz, List.replicate_succ, hc]
    | cons d e' =>
      have hd : d ≠ 0 := he d (List.mem_cons_self d e')
      cases s with
      | nil =>
        simp only [List.cons_append, strncmpz, List.headD_nil, List.headD_cons]
        rw [if_neg (fun h => hd h.symm)]
        simp
      | cons c s' =>
        rw [List.cons_append,
          show (n + 1) - (d :: e').length = n - e'.length from by simp]
        by_cases hcd : c = d
        · subst hcd
          simp only [strncmpz, List.headD_cons, if_pos rfl, List.tail_cons]
          rw [if_neg (hs c (List.mem_cons_self c s'))]
          simp only [if_true]
          rw [ih s' e' (fun b hb => hs b (List.mem_cons_of_mem c hb))
            (fun b hb => he b (List.mem_cons_of_mem c hb))
            (by simpa using hsl) (by simpa using hel)]
          simp
        · simp only [strncmpz, List.headD_cons]
          rw [if_neg hcd]
          simp [hcd]

/-- C8: over a well-formed directory whose blocks all resolve and read,
`directory_findname` returns exactly the first entry, in on-disk order,
that is non-free (nonzero inumber) and whose fixed-width name field equals
the search name under the width-limited comparison (free entries are
skipped, the first match is returned and stops the scan, and the call
fails if no entry matches); and the width-limited comparison against a
zero-padded stored name succeeds exactly on name equality. -/
theorem c8_findname_first_match :
    (∀ (fs : Unixfilesystem) (name : List Nat) (dirinumber : Int) (ino : Inode)
        (secOf : Nat → Nat) (bufOf : Nat → List Nat),
      name.length ≤ 14 →
      inode_iget fs dirinumber = some ino →
      ino.i_mode &&& IFMT = IFDIR →
      inode_getsize ino % 16 = 0 →
      (∀ b, b < (inode_getsize ino + 512 - 1) / 512 →
        inode_indexlookup fs ino (b : Int) = some (secOf b) ∧ secOf b ≠ 0 ∧
          fs.readSector (secOf b) = some (bufOf b)) →
      directory_findname fs name dirinumber =
        ((List.range ((inode_getsize ino + 512 - 1) / 512)).flatMap fun b =>
            (List.range (min 512 (inode_getsize ino - 512 * b) / DIRENT_SIZE)).map
              fun j => decodeDirent (bufOf b) (j * DIRENT_SIZE)).find?
          fun e => !(e.d_inumber == 0) && strncmpz name e.d_name DIRENT_NAME_LEN) ∧
    (∀ s e : List Nat, (∀ b ∈ s, b ≠ 0) → (∀ b ∈ e, b ≠ 0) →
      s.length ≤ DIRENT_NAME_LEN → e.length ≤ DIRENT_NAME_LEN →
      (strncmpz s (e ++ List.replicate (DIRENT_NAME_LEN - e.length) 0)
          DIRENT_NAME_LEN = true ↔ s = e)) := by
  constructor
  · intro fs name dirinumber ino secOf bufOf hlen hget hdir hmul hblocks
    unfold directory_findname
    rw [if_neg (by simp only [DIRENT_NAME_LEN]; omega), hget]
    dsimp only
    rw [if_neg (not_not_intro hdir)]
    by_cases hsz : inode_getsize ino = 0
    · rw [if_pos hsz, hsz]
      rfl
    · rw [if_neg hsz,
        if_neg (not_not_intro (show inode_getsize ino % DIRENT_SIZE = 0 from by
          simp only [DIRENT_SIZE]; exact hmul))]
      have hl := findname_loop_eq fs ino name (inode_getsize ino) secOf bufOf hmul
        hblocks (inode_getsize ino + 1) 0 (by omega)
      rw [Nat.mul_zero, Nat.sub_zero, ← List.range_eq_range'] at hl
      exact hl
  · intro s e hs he hsl hel
    simp only [DIRENT_NAME_LEN]
    exact strncmpz_padded 14 s e hs he
      (by simp only [DIRENT_NAME_LEN] at hsl; omega)
      (by simp only [DIRENT_NAME_LEN] at hel; omega)

set_option maxRecDepth 10000 in
/-- Witness for C8: in the scenario directory at inode 6 of the test image
(entries ("lib" → 2), a freed slot, ("bin" → 5)), searching "bin" skips the
freed slot, rejects "lib", and returns the third entry; and the padded
comparison of "bin" against its own stored field succeeds. -/
theorem c8_findname_first_match_witness :
    directory_findname fsW [98, 105, 110] 6 =
      some ⟨5, [98, 105, 110, 0, 0, 0, 0, 0, 0, 0, 0, 0, 0, 0]⟩ ∧
    (strncmpz [98, 105, 110]
        ([98, 105, 110] ++ List.replicate (DIRENT_NAME_LEN - [98, 105, 110].length) 0)
        DIRENT_NAME_LEN = true ↔ ([98, 105, 110] : List Nat) = [98, 105, 110]) := by
  constructor
  · have h := c8_findname_first_match.1 fsW [98, 105, 110] 6 ino6W
      (fun _ => 101) (fun _ => sector101W) (by decide) rfl (by decide) (by decide)
      (by decide)
    rw [h]
    rfl
  · exact c8_findname_first_match.2 [98, 105, 110] [98, 105, 110]
      (by decide) (by decide) (by decide) (by decide)

/-- The buffer-threaded block loop returns the plain loop's entry with
status 0 on a match, and status −1 with the untouched input buffer
otherwise. -/
theorem findname_loopF_eq (fs : Unixfilesystem) (ino : Inode) (name : List Nat)
    (size : Nat) (d0 : Direntv6) :
    ∀ fuel total blk, findname_loopF fs ino name size d0 fuel total blk =
      match findname_loop fs ino name size fuel total blk with
      | some e => ((0 : Int), e)
      | none => ((-1 : Int), d0) := by
  intro fuel
  induction fuel with
  | zero => intro total blk; rfl
  | succ fuel ih =>
    intro total blk
    simp only [findname_loopF, findname_loop]
    by_cases ht : total < size
    · rw [if_pos ht, if_pos ht]
      cases inode_indexlookup fs ino (blk : Int) with
      | none => rfl
      | some sec =>
        dsimp only
        by_cases hs : sec = 0
        · rw [if_pos hs, if_pos hs]
        · rw [if_neg hs, if_neg hs]
          cases fs.readSector sec with
          | none => rfl
          | some buf =>
            dsimp only
            by_cases hv : (if (DISKIMG_SECTOR_SIZE : Int) ≤
                  (size : Int) - (DISKIMG_SECTOR_SIZE : Int) * (blk : Int)
                then ((DISKIMG_SECTOR_SIZE : Nat) : Int)
                else (size : Int) - (DISKIMG_SECTOR_SIZE : Int) * (blk : Int)) ≤ 0
            · rw [if_pos hv, if_pos hv]
            · rw [if_neg hv, if_neg hv]
              by_cases hm : (if (DISKIMG_SECTOR_SIZE : Int) ≤
                    (size : Int) - (DISKIMG_SECTOR_SIZE : Int) * (blk : Int)
                  then ((DISKIMG_SECTOR_SIZE : Nat) : Int)
                  else (size : Int) - (DISKIMG_SECTOR_SIZE : Int) * (blk : Int)).toNat %
                    DIRENT_SIZE ≠ 0
              · rw [if_pos hm, if_pos hm]
              · rw [if_neg hm, if_neg hm]
                cases scanEntries name buf 0
                    ((if (DISKIMG_SECTOR_SIZE : Int) ≤
                        (size : Int) - (DISKIMG_SECTOR_SIZE : Int) * (blk : Int)
                      then ((DISKIMG_SECTOR_SIZE : Nat) : Int)
                      else (size : Int) -
                        (DISKIMG_SECTOR_SIZE : Int) * (blk : Int)).toNat /
                      DIRENT_SIZE) with
                | some e => rfl
                | none => exact ih _ _
    · rw [if_neg ht, if_neg ht]

/-- C9: `directory_findname` threaded with its caller-supplied output
buffer (`directory_findname_frame`) leaves the buffer exactly as passed in
whenever the plain lookup fails (returning status −1), and writes the
found entry with status 0 exactly when the plain lookup succeeds — no
partial result ever reaches the buffer. -/
theorem c9_findname_failure_leaves_buffer (fs : Unixfilesystem)
    (name : List Nat) (dirinumber : Int) (d0 : Direntv6) :
    (directory_findname fs name dirinumber = none →
      directory_findname_frame fs name dirinumber d0 = (-1, d0)) ∧
    (∀ e, directory_findname fs name dirinumber = some e →
      directory_findname_frame fs name dirinumber d0 = (0, e)) := by
  have hlink : directory_findname_frame fs name dirinumber d0 =
      match directory_findname fs name dirinumber with
      | some e => ((0 : Int), e)
      | none => ((-1 : Int), d0) := by
    unfold directory_findname_frame directory_findname
    by_cases h1 : DIRENT_NAME_LEN < name.length
    · rw [if_pos h1, if_pos h1]
    · rw [if_neg h1, if_neg h1]
      cases inode_iget fs dirinumber with
      | none => rfl
      | some ino =>
        dsimp only
        by_cases h2 : ino.i_mode &&& IFMT ≠ IFDIR
        · rw [if_pos h2, if_pos h2]
        · rw [if_neg h2, if_neg h2]
          by_cases h3 : inode_getsize ino = 0
          · rw [if_pos h3, if_pos h3]
          · rw [if_neg h3, if_neg h3]
            by_cases h4 : inode_getsize ino % DIRENT_SIZE ≠ 0
            · rw [if_pos h4, if_pos h4]
            · rw [if_neg h4, if_neg h4]
              exact findname_loopF_eq fs ino name (inode_getsize ino) d0
                (inode_getsize ino + 1) 0 0
  constructor
  · intro h
    rw [hlink, h]
  · intro e h
    rw [hlink, h]

/-- Witness for C9: on the test image, looking up the absent name "x" in
directory inode 6 fails and leaves an arbitrary preexisting buffer value
untouched, while looking up "bin" overwrites it with the found entry. -/
theorem c9_findname_failure_leaves_buffer_witness :
    directory_findname_frame fsW [120] 6 ⟨7, [1, 2, 3]⟩ = (-1, ⟨7, [1, 2, 3]⟩) ∧
    directory_findname_frame fsW [98, 105, 110] 6 ⟨7, [1, 2, 3]⟩ =
      (0, ⟨5, [98, 105, 110, 0, 0, 0, 0, 0, 0, 0, 0, 0, 0, 0]⟩) :=
  ⟨(c9_findname_failure_leaves_buffer fsW [120] 6 ⟨7, [1, 2, 3]⟩).1 (by rfl),
   (c9_findname_failure_leaves_buffer fsW [98, 105, 110] 6 ⟨7, [1, 2, 3]⟩).2 _ (by rfl)⟩
